import Mathlib

/-!
Verification of the Yoink word-game server (the "yoink" game mode of the
room engine) against its natural-language specification.

The definitions below are a shallow embedding of the TypeScript source:

* `server/src/yoink-scoring.ts` — pure scoring helpers (`YOINK_POINTS`,
  `ROUND_MULTIPLIERS`, `scoreYoinkWord`, `spawnIntervalMs`);
* the socket server (room lifecycle, yoink arbitration, word submission,
  round flow) — embedded as an explicit state machine `stepServer` over a
  registry of rooms, with PRNG draws, clock readings and timer firings
  supplied as event parameters.

Modelling conventions:

* JavaScript numbers are modelled as exact rationals (`ℚ`); the values the
  game actually computes (integer letter sums, multipliers 1.0 / 1.2 / 1.5,
  tenths-of-a-point bonuses) are far from any floating-point rounding
  boundary, so this idealisation is faithful on the reachable inputs.
* `Math.round` is round-half-toward-positive-infinity (`⌊x + 1/2⌋`).
* `Infinity` returned by `spawnIntervalMs` at a full grid is modelled as
  `Option.none`.
* `setTimeout` / `setInterval` handles are modelled as pending-callback
  flags on the room; an event that fires a timer consumes it.
* ECMAScript `Array.prototype.sort` is stable (ES2019); a stable sort with
  respect to a total preorder comparator is uniquely determined, so it is
  embedded as a stable insertion sort.
-/

namespace Yoink

/-- Letter point table from `server/src/yoink-scoring.ts` (`YOINK_POINTS`);
a lookup miss yields 0, mirroring `YOINK_POINTS[ch] ?? 0`. -/
def YOINK_POINTS (c : Char) : ℕ :=
  match c with
  | 'A' => 10 | 'B' => 20 | 'C' => 20 | 'D' => 10 | 'E' => 10
  | 'F' => 20 | 'G' => 10 | 'H' => 20 | 'I' => 10 | 'J' => 30
  | 'K' => 20 | 'L' => 10 | 'M' => 20 | 'N' => 10 | 'O' => 10
  | 'P' => 20 | 'Q' => 30 | 'R' => 10 | 'S' => 10 | 'T' => 10
  | 'U' => 10 | 'V' => 20 | 'W' => 20 | 'X' => 30 | 'Y' => 20
  | 'Z' => 30
  | _ => 0

/-- Round multipliers from `server/src/yoink-scoring.ts`
(`ROUND_MULTIPLIERS = [1.0, 1.2, 1.5]`). -/
def ROUND_MULTIPLIERS : List ℚ := [1, 6/5, 3/2]

/-- JavaScript `Math.round`: nearest integer, halves toward `+∞`. -/
def mathRound (q : ℚ) : ℤ := Int.floor (q + 1/2)

/-- `scoreYoinkWord` from `server/src/yoink-scoring.ts`:
`Math.round(letterSum * (1 + 0.20 * word.length) * roundMultiplier)` where
`letterSum` sums `YOINK_POINTS` over the uppercased word. The word is
carried as its character list. -/
def scoreYoinkWord (word : List Char) (roundMultiplier : ℚ) : ℤ :=
  let letterSum : ℕ := (word.map (fun c => YOINK_POINTS c.toUpper)).sum
  let lengthBonus : ℚ := 1 + (1/5 : ℚ) * word.length
  mathRound ((letterSum : ℚ) * lengthBonus * roundMultiplier)

/-- Interval value computed on the non-full branch of `spawnIntervalMs`:
`(0.5 + (10 − 0.5) * (fullness / 15)) * 1000`. -/
def spawnIntervalMsQ (n : ℕ) : ℚ := (1/2 + (10 - 1/2) * ((n : ℚ) / 15)) * 1000

/-- `spawnIntervalMs` from `server/src/yoink-scoring.ts`; the `Infinity`
returned when 16 or more tiles are present is modelled as `none`. -/
def spawnIntervalMs (currentTileCount : ℕ) : Option ℚ :=
  if 16 ≤ currentTileCount then none else some (spawnIntervalMsQ currentTileCount)

/-! ### Spec-side definitions (from the specification text, for comparison) -/

/-- The letters of the A–Z alphabet in both cases; "a word over A–Z
(case-insensitive)" is a word all of whose characters are in this list. -/
def ALPHA : List Char := "ABCDEFGHIJKLMNOPQRSTUVWXYZabcdefghijklmnopqrstuvwxyz".data

/-- Modelled from the spec (§6.1): the 10-point letter tier. -/
def TIER10 : List Char := "ADEGILNORSTU".data

/-- Modelled from the spec (§6.1): the 20-point letter tier. -/
def TIER20 : List Char := "BCFHKMPVWY".data

/-- Modelled from the spec (§6.1): the 30-point letter tier. -/
def TIER30 : List Char := "JQXZ".data

/-- Modelled from the spec (§6.1): per-letter points by tier; letters
outside A–Z count 0 ("only A–Z counted"). -/
def specLetterPoints (c : Char) : ℕ :=
  if c ∈ TIER10 then 10 else if c ∈ TIER20 then 20 else if c ∈ TIER30 then 30 else 0

/-- Rounding half away from zero, as named by the spec for `scoreWord`. -/
def roundHalfAwayFromZero (q : ℚ) : ℤ :=
  if 0 ≤ q then Int.floor (q + 1/2) else -Int.floor (-q + 1/2)

/-- Modelled from the spec (§4.B): per-word letter points, case-insensitive. -/
def specWordPoints (w : List Char) : ℕ := (w.map (fun c => specLetterPoints c.toUpper)).sum

/-- Modelled from the spec (§4.B):
`scoreWord(word, multiplier) = round(sum(letterPoints) · (1 + 0.20·|word|) · multiplier)`
with round-half-away-from-zero. -/
def specScoreWord (w : List Char) (m : ℚ) : ℤ :=
  roundHalfAwayFromZero ((specWordPoints w : ℚ) * (1 + (1/5 : ℚ) * w.length) * m)

/-! ### Scoring lemmas -/

lemma points_agree_on_alpha : ∀ c ∈ ALPHA, YOINK_POINTS c.toUpper = specLetterPoints c.toUpper := by
  decide

lemma letterSum_eq_specWordPoints (w : List Char) (hw : ∀ c ∈ w, c ∈ ALPHA) :
    (w.map (fun c => YOINK_POINTS c.toUpper)).sum = specWordPoints w := by
  unfold specWordPoints
  induction w with
  | nil => rfl
  | cons c cs ih =>
    simp only [List.map_cons, List.sum_cons]
    rw [points_agree_on_alpha c (hw c (List.mem_cons_self c cs)),
      ih (fun x hx => hw x (List.mem_cons_of_mem c hx))]

lemma roundHalfAwayFromZero_of_nonneg (q : ℚ) (h : 0 ≤ q) :
    roundHalfAwayFromZero q = mathRound q := by
  unfold roundHalfAwayFromZero mathRound
  rw [if_pos h]

/-- C1: for every word over A–Z (case-insensitive) and every nonnegative
round multiplier, `scoreYoinkWord` equals the spec formula
`round(Σ letterPoints · (1 + 0.20·|W|) · m)` with round-half-away-from-zero
(determinism is immediate, both sides being functions); in particular
scoring "CAT" at multiplier 1.2 yields 77 points. -/
theorem C1_score_matches_spec (w : List Char) (hw : ∀ c ∈ w, c ∈ ALPHA)
    (m : ℚ) (hm : 0 ≤ m) :
    scoreYoinkWord w m = specScoreWord w m ∧ scoreYoinkWord "CAT".data (6/5) = 77 := by
  constructor
  · unfold scoreYoinkWord specScoreWord
    rw [letterSum_eq_specWordPoints w hw, roundHalfAwayFromZero_of_nonneg]
    have h1 : (0 : ℚ) ≤ (specWordPoints w : ℚ) := by positivity
    have h2 : (0 : ℚ) ≤ 1 + (1/5 : ℚ) * w.length := by positivity
    exact mul_nonneg (mul_nonneg h1 h2) hm
  · have hsum : (("CAT".data).map (fun c => YOINK_POINTS c.toUpper)).sum = 40 := by decide
    have hlen : ("CAT".data).length = 3 := by decide
    simp only [scoreYoinkWord, hsum, hlen]
    unfold mathRound
    rw [Int.floor_eq_iff]
    norm_num

/-- Witness for C1 at the concrete word "CAT" and multiplier 1.2. -/
theorem C1_score_matches_spec_witness :
    scoreYoinkWord "CAT".data (6/5) = specScoreWord "CAT".data (6/5) :=
  (C1_score_matches_spec "CAT".data (by decide) (6/5) (by norm_num)).1

/-- C3: for every tile count `0 ≤ n ≤ 15`, the next spawn interval is
`500 + (10000 − 500) · (n / 15)` milliseconds; in particular exactly
500 ms at `n = 0` and exactly 10000 ms at `n = 15`. -/
theorem C3_spawn_interval_formula (n : ℕ) (h : n ≤ 15) :
    spawnIntervalMs n = some (500 + (10000 - 500) * ((n : ℚ) / 15)) ∧
    spawnIntervalMs 0 = some 500 ∧ spawnIntervalMs 15 = some 10000 := by
  refine ⟨?_, ?_, ?_⟩
  · unfold spawnIntervalMs
    rw [if_neg (by omega)]
    congr 1
    unfold spawnIntervalMsQ
    ring
  · norm_num [spawnIntervalMs, spawnIntervalMsQ]
  · norm_num [spawnIntervalMs, spawnIntervalMsQ]

/-- Witness for C3 at the concrete count `n = 3`. -/
theorem C3_spawn_interval_formula_witness :
    spawnIntervalMs 3 = some (500 + (10000 - 500) * ((3 : ℕ) / 15 : ℚ)) :=
  (C3_spawn_interval_formula 3 (by decide)).1

/-! ### The room engine state machine (embedded from the socket server) -/

/-- Room phases (`type Phase`). -/
inductive Phase
  | lobby | playing | intermission | finished
deriving DecidableEq

/-- The pending callback held in `room.spawnTimer`: `recheck` is the 500 ms
re-check `setTimeout(scheduleNext, 500)` armed while the grid is full (or
the phase not playing at scheduling time); `spawn` is the tile-spawning
`setTimeout(..., spawnIntervalMs(count))`. -/
inductive SpawnCb
  | recheck | spawn
deriving DecidableEq

/-- A player (the yoink-mode fields of the `Player` record; the classic-mode
`hand` map is out of scope). -/
structure Player where
  id : String
  name : String
  liveScore : ℤ
  words : List (String × ℤ)
  bank : List Char
  lastYoinkTime : ℤ
deriving DecidableEq

/-- Yoink-mode settings (classic-mode fields out of scope). -/
structure Settings where
  minLen : ℕ
  rounds : ℕ
  roundDurationSec : ℕ
  intermissionSec : ℕ
deriving DecidableEq

/-- One row of the round/game leaderboard emitted by `endYoinkRound`. -/
structure LBEntry where
  id : String
  name : String
  roundScore : ℤ
  cumulativeScore : ℤ
deriving DecidableEq

/-- Outbound messages; the per-viewer `lobby:state` projection payload is
elided to the tag `stateMsg` (no claim inspects its contents). -/
inductive Msg
  | stateMsg
  | yoinkRejected (reason : String)
  | tileYoinked (playerId playerName : String) (index : ℤ) (letter : Char)
  | wordRejected (word reason : String)
  | wordAccepted (playerId name word : String) (letters : ℕ) (points : ℤ)
  | roundEnded (round totalRounds : ℕ) (leaderboard : List LBEntry)
  | gameEnded (leaderboard : List LBEntry)
deriving DecidableEq

/-- An emission: to a single socket, or broadcast to a room. -/
inductive Emit
  | toPlayer (sid : String) (m : Msg)
  | toRoom (roomId : String) (m : Msg)
deriving DecidableEq

/-- A room (the yoink-mode fields of `RoomState`). The `spawnTimer` and
`tick` timer handles are modelled as pending-callback flags. -/
structure Room where
  id : String
  settings : Settings
  players : List Player
  yoinkPool : List (Option Char)
  spawnTimer : Option SpawnCb
  started : Bool
  phase : Phase
  currentRound : ℕ
  totalRounds : ℕ
  cumulativeScores : List (String × ℤ)
  endAt : Option ℤ
  tick : Bool
deriving DecidableEq

/-- `Map.set` on an association list: replace in place or append. -/
def setAssoc : List (String × ℤ) → String → ℤ → List (String × ℤ)
  | [], k, v => [(k, v)]
  | (a, b) :: t, k, v => if a = k then (k, v) :: t else (a, b) :: setAssoc t k v

/-- `Map.get` on an association list. -/
def getAssoc (l : List (String × ℤ)) (k : String) : Option ℤ :=
  (l.find? (fun p => p.1 == k)).map (fun p => p.2)

/-- `countPoolTiles`: number of non-empty slots. -/
def countPoolTiles (pool : List (Option Char)) : ℕ :=
  (pool.filter (fun t => t.isSome)).length

/-- `fillYoinkPool`: fill every `null` slot with the next weighted random
letter; the PRNG draws are supplied in `ls` (`headD 'E'` mirrors the
`weightedRandomLetter` fallback letter "E"). -/
def fillYoinkPool : List (Option Char) → List Char → List (Option Char)
  | [], _ => []
  | some c :: rest, ls => some c :: fillYoinkPool rest ls
  | none :: rest, ls => some (ls.headD 'E') :: fillYoinkPool rest (ls.drop 1)

/-- The scheduling decision of `scheduleNext` inside `startSpawnTimer`:
with the grid full or the phase not playing, a 500 ms re-check is armed
when still playing (and nothing otherwise); else a spawn is armed after
`spawnIntervalMs(count)`. -/
def scheduleNext (phase : Phase) (count : ℕ) : Option SpawnCb :=
  if 16 ≤ count ∨ phase ≠ Phase.playing then
    if phase = Phase.playing then some SpawnCb.recheck else none
  else some SpawnCb.spawn

/-- `startSpawnTimer`: clear any pending callback and arm `scheduleNext`. -/
def startSpawnTimer (r : Room) : Room :=
  { r with spawnTimer := scheduleNext r.phase (countPoolTiles r.yoinkPool) }

/-- Recursion core of `canConsumeFromBank`: repeatedly locate each letter
(`indexOf` + `splice` = erase of the first occurrence). -/
def canConsumeAux : List Char → List Char → Bool
  | [], _ => true
  | c :: cs, avail => if avail.contains c then canConsumeAux cs (avail.erase c) else false

/-- `canConsumeFromBank(word, bank)` from the server source. -/
def canConsumeFromBank (word : List Char) (bank : List Char) : Bool :=
  canConsumeAux (word.map Char.toUpper) bank

/-- `consumeFromBank(word, bank)` from the server source: erase the first
occurrence of each letter of the word (no-op for an absent letter). -/
def consumeFromBank (word : List Char) (bank : List Char) : List Char :=
  (word.map Char.toUpper).foldl (fun rem c => rem.erase c) bank

/-- Stable insertion for the leaderboard sort: `x` is placed before the
first entry with a strictly smaller cumulative score, so entries with equal
scores keep their original relative order. -/
def lbInsert (x : LBEntry) : List LBEntry → List LBEntry
  | [] => [x]
  | y :: t => if y.cumulativeScore < x.cumulativeScore then x :: y :: t else y :: lbInsert x t

/-- `roundResults.sort((a, b) => b.cumulativeScore - a.cumulativeScore)`
(ECMAScript sort is stable; a stable sort for this comparator is uniquely
determined, here realised as stable insertion sort). -/
def sortLeaderboard (l : List LBEntry) : List LBEntry :=
  l.foldl (fun acc x => lbInsert x acc) []

/-- Default settings installed by `ensureRoom` (yoink-mode fields). -/
def defaultSettings : Settings :=
  { minLen := 3, rounds := 3, roundDurationSec := 60, intermissionSec := 10 }

/-- The fresh room built by `ensureRoom` for an unknown room code. -/
def newRoom (id : String) : Room :=
  { id := id, settings := defaultSettings, players := [],
    yoinkPool := List.replicate 16 none, spawnTimer := none, started := false,
    phase := Phase.lobby, currentRound := 0, totalRounds := defaultSettings.rounds,
    cumulativeScores := [], endAt := none, tick := false }

/-- `emitStateToAll`, collapsed to a room-wide tag (per-viewer payloads are
out of scope). -/
def emitState (r : Room) : Emit := Emit.toRoom r.id Msg.stateMsg

/-- The `lobby:join` handler body for an existing room. -/
def handleJoin (r : Room) (pid name : String) : Room × List Emit :=
  if r.players.any (fun p => p.id == pid) then (r, [emitState r])
  else
    let nm0 : String := ⟨name.data.take 16⟩
    let nm := if nm0 = "" then "Player" else nm0
    let p : Player :=
      { id := pid, name := nm, liveScore := 0, words := [], bank := [], lastYoinkTime := 0 }
    let r2 := { r with players := r.players ++ [p],
                       cumulativeScores := setAssoc r.cumulativeScores pid 0 }
    (r2, [emitState r2])

/-- The `tile:yoink` handler body (yoink arbitration). -/
def tileYoink (r : Room) (pid : String) (index : ℤ) (now : ℤ) : Room × List Emit :=
  if r.phase ≠ Phase.playing then (r, []) else
  match r.players.find? (fun p => p.id == pid) with
  | none => (r, [])
  | some player =>
    if index < 0 ∨ 15 < index then (r, []) else
    match r.yoinkPool.getD index.toNat none with
    | none => (r, [])
    | some tile =>
      if 7 ≤ player.bank.length then (r, [Emit.toPlayer pid (Msg.yoinkRejected "bank full")]) else
      if now - player.lastYoinkTime < 500 then
        (r, [Emit.toPlayer pid (Msg.yoinkRejected "too fast")])
      else
        let p2 := { player with lastYoinkTime := now, bank := player.bank ++ [tile] }
        let r2 := { r with yoinkPool := r.yoinkPool.set index.toNat none,
                           players := r.players.map (fun q => if q.id == pid then p2 else q) }
        let r3 := startSpawnTimer r2
        (r3, [emitState r3, Emit.toRoom r.id (Msg.tileYoinked pid player.name index tile)])

/-- The `word:submit` handler body, yoink branch. The rate-limiter verdict
`allowed` (`allowSubmit`, per-connection token bucket) is supplied by the
environment. -/
def handleSubmit (dict : List String) (r : Room) (pid : String) (word0 : String)
    (allowed : Bool) : Room × List Emit :=
  if ¬ r.started then (r, []) else
  if ¬ allowed then (r, []) else
  let w : List Char := word0.data.map Char.toUpper
  let word : String := ⟨w⟩
  match r.players.find? (fun p => p.id == pid) with
  | none => (r, [])
  | some player =>
    if ¬ (w.isEmpty = false ∧ w.all (fun c => decide ('A' ≤ c) && decide (c ≤ 'Z')) = true) then
      (r, [])
    else
    if word.length < r.settings.minLen then
      (r, [Emit.toPlayer pid (Msg.wordRejected word "too short")]) else
    if 7 < word.length then
      (r, [Emit.toPlayer pid (Msg.wordRejected word "too long (max 7)")]) else
    if ¬ dict.contains word then
      (r, [Emit.toPlayer pid (Msg.wordRejected word "not in dictionary")]) else
    if ¬ canConsumeFromBank w player.bank then
      (r, [Emit.toPlayer pid (Msg.wordRejected word "not enough tiles in bank")]) else
    let bank2 := consumeFromBank w player.bank
    let roundIdx := r.currentRound - 1
    let mult := (ROUND_MULTIPLIERS.get? roundIdx).getD 1
    let pts := scoreYoinkWord w mult
    let p2 := { player with bank := bank2, words := player.words ++ [(word, pts)],
                            liveScore := player.liveScore + pts }
    let r2 := { r with players := r.players.map (fun q => if q.id == pid then p2 else q) }
    (r2, [Emit.toPlayer pid (Msg.wordAccepted pid player.name word word.length pts), emitState r2])

/-- Cumulative-score update and leaderboard rows of `endYoinkRound`,
iterating the player table in insertion order. -/
def endRoundAux : List Player → List (String × ℤ) → List (String × ℤ) × List LBEntry
  | [], cum => (cum, [])
  | p :: ps, cum =>
    let before := (getAssoc cum p.id).getD 0
    let after := before + p.liveScore
    let cum2 := setAssoc cum p.id after
    let rest := endRoundAux ps cum2
    (rest.1, { id := p.id, name := p.name, roundScore := p.liveScore,
               cumulativeScore := after } :: rest.2)

/-- `endYoinkRound` from the server source. -/
def endYoinkRound (r : Room) (now : ℤ) : Room × List Emit :=
  let res := endRoundAux r.players r.cumulativeScores
  let sorted := sortLeaderboard res.2
  let ev := Emit.toRoom r.id (Msg.roundEnded r.currentRound r.totalRounds sorted)
  if r.totalRounds ≤ r.currentRound then
    let r2 := { r with cumulativeScores := res.1, phase := Phase.finished, started := false }
    (r2, [ev, Emit.toRoom r.id (Msg.gameEnded sorted), emitState r2])
  else
    let r2 := { r with cumulativeScores := res.1, phase := Phase.intermission,
                       endAt := some (now + (r.settings.intermissionSec : ℤ) * 1000) }
    (r2, [ev, emitState r2])

/-- `startNextYoinkRound`: reset pool and banks, arm the spawn and tick
timers; the 16 PRNG draws of the initial fill are supplied in `letters`. -/
def startNextYoinkRound (r : Room) (now : ℤ) (letters : List Char) : Room × List Emit :=
  let r1 := { r with currentRound := r.currentRound + 1, phase := Phase.playing, started := true,
                     yoinkPool := fillYoinkPool (List.replicate 16 none) letters,
                     players := r.players.map
                       (fun p => { p with liveScore := 0, words := [], bank := [],
                                          lastYoinkTime := 0 }),
                     endAt := some (now + (r.settings.roundDurationSec : ℤ) * 1000) }
  let r2 := startSpawnTimer r1
  let r3 := { r2 with tick := true }
  (r3, [emitState r3])

/-- The `game:start` handler body: `startYoinkGame` followed by the
handler-level `emitStateToAll`. -/
def handleGameStart (r : Room) (now : ℤ) (letters : List Char) : Room × List Emit :=
  let r1 := { r with totalRounds := r.settings.rounds, currentRound := 0,
                     cumulativeScores := r.players.map (fun p => (p.id, 0)) }
  let res := startNextYoinkRound r1 now letters
  (res.1, res.2 ++ [emitState res.1])

/-- The 1 Hz tick callback: at or past `endAt` it clears both timers and
runs `endYoinkRound`; otherwise it re-broadcasts state. -/
def handleTick (r : Room) (now : ℤ) : Room × List Emit :=
  if r.tick = false then (r, []) else
  if r.endAt.getD now ≤ now then
    endYoinkRound { r with tick := false, spawnTimer := none } now
  else (r, [emitState r])

/-- Firing of the pending spawn-loop callback. A `recheck` runs
`scheduleNext`; a `spawn` fills a uniformly chosen empty slot (the PRNG
choice is supplied as `slotChoice`, reduced modulo the number of empties)
and then re-runs `scheduleNext`. -/
def handleSpawnFire (r : Room) (slotChoice : ℕ) (letter : Char) : Room × List Emit :=
  match r.spawnTimer with
  | none => (r, [])
  | some SpawnCb.recheck =>
    ({ r with spawnTimer := scheduleNext r.phase (countPoolTiles r.yoinkPool) }, [])
  | some SpawnCb.spawn =>
    if r.phase ≠ Phase.playing then ({ r with spawnTimer := none }, []) else
    let empties := (List.range 16).filter (fun i => (r.yoinkPool.getD i none).isNone)
    if empties.isEmpty then
      ({ r with spawnTimer := scheduleNext r.phase (countPoolTiles r.yoinkPool) }, [])
    else
      let idx := empties.getD (slotChoice % empties.length) 0
      let pool2 := r.yoinkPool.set idx (some letter)
      ({ r with yoinkPool := pool2,
                spawnTimer := scheduleNext r.phase (countPoolTiles pool2) },
       [emitState { r with yoinkPool := pool2 }])

/-- Firing of the anonymous intermission `setTimeout` armed by
`endYoinkRound`; its body checks the phase itself. -/
def handleIntermissionFire (r : Room) (now : ℤ) (letters : List Char) : Room × List Emit :=
  if r.phase = Phase.intermission then startNextYoinkRound r now letters else (r, [])

/-- `Math.max(lo, Math.min(hi, z))`. -/
def clampI (lo hi z : ℤ) : ℤ := max lo (min hi z)

/-- The `settings:update` handler body, restricted to the yoink-mode fields
(each input is the already-`Math.round`ed numeric payload field). -/
def handleSettingsUpdate (r : Room)
    (rounds roundDurationSec intermissionSec minLen : Option ℤ) : Room × List Emit :=
  let s0 := r.settings
  let s1 := match minLen with
    | some z => { s0 with minLen := (clampI 2 6 z).toNat } | none => s0
  let s2 := match rounds with
    | some z => { s1 with rounds := (clampI 1 5 z).toNat } | none => s1
  let s3 := match roundDurationSec with
    | some z => { s2 with roundDurationSec := (clampI 15 300 z).toNat } | none => s2
  let s4 := match intermissionSec with
    | some z => { s3 with intermissionSec := (clampI 3 30 z).toNat } | none => s3
  let r2 := { r with settings := s4 }
  (r2, [emitState r2])

/-- The `disconnect` handler body: delete the player, re-broadcast state.
Nothing else happens (no room removal, no timer cancellation). -/
def handleDisconnect (r : Room) (pid : String) : Room × List Emit :=
  let r2 := { r with players := r.players.filter (fun p => !(p.id == pid)) }
  (r2, [emitState r2])

/-- The room registry (`const rooms = new Map()`), as a list of rooms keyed
by their `id`. -/
abbrev ServerSt := List Room

/-- `rooms.get(roomId)`. -/
def lookupRoom (s : ServerSt) (rid : String) : Option Room :=
  s.find? (fun r => r.id == rid)

/-- Commit an updated room back into the registry under its own id. -/
def replaceRoom (s : ServerSt) (r2 : Room) : ServerSt :=
  s.map (fun q => if q.id == r2.id then r2 else q)

/-- Inbound events; clock readings (`now`), PRNG draws (`letters`,
`slotChoice`, `letter`) and the rate-limiter verdict (`allowed`) ride on
the event, and timer firings are events guarded by their pending flag. -/
inductive Event
  | join (room pid name : String)
  | gameStart (room : String) (now : ℤ) (letters : List Char)
  | yoink (room pid : String) (index now : ℤ)
  | submit (room pid : String) (word : String) (allowed : Bool)
  | spawnFire (room : String) (slotChoice : ℕ) (letter : Char)
  | tickFire (room : String) (now : ℤ)
  | intermissionFire (room : String) (now : ℤ) (letters : List Char)
  | settingsUpdate (room : String) (rounds roundDurationSec intermissionSec minLen : Option ℤ)
  | disconnect (room pid : String)

/-- Dispatch an event to a room present in the registry; events addressed
to an unknown room are dropped. -/
def onRoom (s : ServerSt) (rid : String) (f : Room → Room × List Emit) : ServerSt × List Emit :=
  match lookupRoom s rid with
  | none => (s, [])
  | some r => ((replaceRoom s (f r).1), (f r).2)

/-- One step of the server: route an inbound event to its handler
(`lobby:join` creates the room when absent, via `ensureRoom`). -/
def stepServer (dict : List String) (s : ServerSt) (e : Event) : ServerSt × List Emit :=
  match e with
  | Event.join rid pid name =>
    match lookupRoom s rid with
    | some r => ((replaceRoom s (handleJoin r pid name).1), (handleJoin r pid name).2)
    | none => (s ++ [(handleJoin (newRoom rid) pid name).1], (handleJoin (newRoom rid) pid name).2)
  | Event.gameStart rid now letters => onRoom s rid (fun r => handleGameStart r now letters)
  | Event.yoink rid pid index now => onRoom s rid (fun r => tileYoink r pid index now)
  | Event.submit rid pid word allowed => onRoom s rid (fun r => handleSubmit dict r pid word allowed)
  | Event.spawnFire rid choice letter => onRoom s rid (fun r => handleSpawnFire r choice letter)
  | Event.tickFire rid now => onRoom s rid (fun r => handleTick r now)
  | Event.intermissionFire rid now letters =>
    onRoom s rid (fun r => handleIntermissionFire r now letters)
  | Event.settingsUpdate rid a b c d => onRoom s rid (fun r => handleSettingsUpdate r a b c d)
  | Event.disconnect rid pid => onRoom s rid (fun r => handleDisconnect r pid)

/-- States reachable from the empty registry by any event sequence. -/
inductive Reachable (dict : List String) : ServerSt → Prop
  | init : Reachable dict []
  | step (s : ServerSt) (e : Event) : Reachable dict s → Reachable dict (stepServer dict s e).1

/-- The fallback dictionary compiled into the server
(`let DICT = new Set(["TEAM", "BOX", "STONE", "RUSH"])`). -/
def fallbackDICT : List String := ["TEAM", "BOX", "STONE", "RUSH"]

/-- Run a list of events from a state (fallback dictionary). -/
def runEvents (s : ServerSt) (es : List Event) : ServerSt :=
  es.foldl (fun st e => (stepServer fallbackDICT st e).1) s

/-- The room of the registry under code "R" (used by concrete traces). -/
def rmAt (s : ServerSt) : Room := (lookupRoom s "R").getD (newRoom "R")

/-- Sixteen PRNG draws used by the concrete traces. -/
def L16 : List Char := "TEAMSTONEBOXRUSH".data

/-- Trace: one player joins room "R". -/
def sJoin : ServerSt := (stepServer fallbackDICT [] (Event.join "R" "p1" "Zed")).1

/-- Trace: the game is started at time 0 after the join. -/
def sStart : ServerSt := (stepServer fallbackDICT sJoin (Event.gameStart "R" 0 L16)).1

/-- Trace: one tile is yoinked from slot 0 at time 1000. -/
def sYoink1 : ServerSt := (stepServer fallbackDICT sStart (Event.yoink "R" "p1" 0 1000)).1

/-- Trace: slots 3, 2, 1, 0 yoinked in that order (bank `[M, A, E, T]`). -/
def sBank4 : ServerSt :=
  runEvents sStart
    [Event.yoink "R" "p1" 3 1000, Event.yoink "R" "p1" 2 1500,
     Event.yoink "R" "p1" 1 2000, Event.yoink "R" "p1" 0 2500]

/-- Trace: slots 0–6 yoinked in order (bank at capacity 7). -/
def sBank7 : ServerSt :=
  runEvents sStart
    [Event.yoink "R" "p1" 0 1000, Event.yoink "R" "p1" 1 1500,
     Event.yoink "R" "p1" 2 2000, Event.yoink "R" "p1" 3 2500,
     Event.yoink "R" "p1" 4 3000, Event.yoink "R" "p1" 5 3500,
     Event.yoink "R" "p1" 6 4000]

/-- Trace: players "Zed" then "Amy" join and the game starts. -/
def sZA : ServerSt :=
  runEvents []
    [Event.join "R" "p1" "Zed", Event.join "R" "p2" "Amy", Event.gameStart "R" 0 L16]

/-! ### Helper lemmas about the machine -/

lemma reachable_runEvents (s : ServerSt) (es : List Event)
    (hs : Reachable fallbackDICT s) : Reachable fallbackDICT (runEvents s es) := by
  induction es generalizing s with
  | nil => exact hs
  | cons e t ih => exact ih _ (Reachable.step s e hs)

lemma lookupRoom_replaceRoom (s : ServerSt) (rid : String) (r r2 : Room)
    (h : lookupRoom s rid = some r) (hid : r2.id = r.id) :
    lookupRoom (replaceRoom s r2) rid = some r2 := by
  have hrid : (r.id == rid) = true := by
    have h0 : s.find? (fun q => q.id == rid) = some r := h
    have := List.find?_some h0
    exact this
  induction s with
  | nil => simp [lookupRoom] at h
  | cons q t ih =>
    unfold replaceRoom
    unfold lookupRoom
    simp only [List.map_cons]
    cases hq : (q.id == rid) with
    | true =>
      have hrq : q = r := by
        have h1 : lookupRoom (q :: t) rid = some q := by
          unfold lookupRoom
          exact List.find?_cons_of_pos (p := fun x : Room => x.id == rid) t hq
        rw [h1] at h
        exact Option.some.inj h
      have hq2 : (if (q.id == r2.id) = true then r2 else q) = r2 := by
        have hb : (q.id == r2.id) = true := by
          rw [hrq, hid]
          exact beq_self_eq_true r.id
        simp [hb]
      rw [hq2]
      exact List.find?_cons_of_pos (p := fun x : Room => x.id == rid) _
        (by show (r2.id == rid) = true; rw [hid]; exact hrid)
    | false =>
      have hq2 : (if (q.id == r2.id) = true then r2 else q) = q := by
        have hne : (q.id == r2.id) = false := by
          rw [hid]
          cases hb : (q.id == r.id) with
          | false => rfl
          | true =>
            have hqr : q.id = r.id := eq_of_beq hb
            rw [hqr, hrid] at hq
            exact absurd hq (by simp)
        simp [hne]
      rw [hq2]
      have hstep : List.find? (fun x => x.id == rid)
          (q :: List.map (fun x => if (x.id == r2.id) = true then r2 else x) t) =
          List.find? (fun x => x.id == rid)
          (List.map (fun x => if (x.id == r2.id) = true then r2 else x) t) :=
        List.find?_cons_of_neg (p := fun x : Room => x.id == rid) _ (by simp [hq])
      rw [hstep]
      have ht : lookupRoom t rid = some r := by
        have h1 : lookupRoom (q :: t) rid = lookupRoom t rid := by
          unfold lookupRoom
          exact List.find?_cons_of_neg (p := fun x : Room => x.id == rid) t (by simp [hq])
        rw [← h1]
        exact h
      exact ih ht

lemma length_fillYoinkPool (pool : List (Option Char)) (ls : List Char) :
    (fillYoinkPool pool ls).length = pool.length := by
  induction pool generalizing ls with
  | nil => rfl
  | cons t rest ih =>
    cases t with
    | none => simp [fillYoinkPool, ih]
    | some c => simp [fillYoinkPool, ih]

lemma isSome_of_mem_fillYoinkPool (pool : List (Option Char)) (ls : List Char) :
    ∀ t ∈ fillYoinkPool pool ls, t.isSome = true := by
  induction pool generalizing ls with
  | nil => intro t ht; simp [fillYoinkPool] at ht
  | cons hd rest ih =>
    intro t ht
    cases hd with
    | none =>
      simp only [fillYoinkPool, List.mem_cons] at ht
      rcases ht with h | h
      · rw [h]; rfl
      · exact ih _ t h
    | some c =>
      simp only [fillYoinkPool, List.mem_cons] at ht
      rcases ht with h | h
      · rw [h]; rfl
      · exact ih _ t h

lemma handleGameStart_id (r : Room) (now : ℤ) (letters : List Char) :
    ((handleGameStart r now letters).1).id = r.id := by
  simp [handleGameStart, startNextYoinkRound, startSpawnTimer]

lemma foldl_erase_length_le (l : List Char) (acc : List Char) :
    (l.foldl (fun rem c => rem.erase c) acc).length ≤ acc.length := by
  induction l generalizing acc with
  | nil => simp
  | cons c cs ih =>
    simp only [List.foldl_cons]
    refine le_trans (ih (acc.erase c)) ?_
    rw [List.length_erase]
    split <;> omega

lemma consumeFromBank_length_le (w bank : List Char) :
    (consumeFromBank w bank).length ≤ bank.length :=
  foldl_erase_length_le _ _

lemma mem_replaceRoom (s : ServerSt) (r2 x : Room) (hx : x ∈ replaceRoom s r2) :
    x = r2 ∨ x ∈ s := by
  unfold replaceRoom at hx
  rw [List.mem_map] at hx
  obtain ⟨q, hq, hqx⟩ := hx
  by_cases hb : (q.id == r2.id) = true
  · left
    rw [← hqx]
    simp [hb]
  · right
    rw [← hqx]
    simp only [hb, if_false]
    exact hq

/-- The inductive room invariant: every bank holds at most 7 letters, and
while playing the pending spawn-loop callback is exactly the one
`scheduleNext` computes from the current tile count. -/
def RoomInv (r : Room) : Prop :=
  (∀ p ∈ r.players, p.bank.length ≤ 7) ∧
  (r.phase = Phase.playing →
    r.spawnTimer = scheduleNext Phase.playing (countPoolTiles r.yoinkPool))

lemma newRoom_inv (rid : String) : RoomInv (newRoom rid) := by
  constructor
  · intro p hp
    simp [newRoom] at hp
  · intro hph
    simp [newRoom] at hph

lemma handleJoin_inv (r : Room) (pid name : String) (h : RoomInv r) :
    RoomInv (handleJoin r pid name).1 := by
  unfold handleJoin
  split
  · exact h
  · constructor
    · intro p hp
      simp only [List.mem_append, List.mem_singleton] at hp
      rcases hp with hp | hp
      · exact h.1 p hp
      · rw [hp]
        simp
    · exact h.2

lemma startNextYoinkRound_inv (r : Room) (now : ℤ) (letters : List Char) :
    RoomInv (startNextYoinkRound r now letters).1 := by
  constructor
  · intro p hp
    simp only [startNextYoinkRound, startSpawnTimer, List.mem_map] at hp
    obtain ⟨q, _, hq⟩ := hp
    rw [← hq]
    simp
  · intro _
    simp [startNextYoinkRound, startSpawnTimer]

lemma handleGameStart_inv (r : Room) (now : ℤ) (letters : List Char) :
    RoomInv (handleGameStart r now letters).1 := by
  unfold handleGameStart
  exact startNextYoinkRound_inv _ now letters

lemma handleIntermissionFire_inv (r : Room) (now : ℤ) (letters : List Char)
    (h : RoomInv r) : RoomInv (handleIntermissionFire r now letters).1 := by
  unfold handleIntermissionFire
  split
  · exact startNextYoinkRound_inv r now letters
  · exact h

lemma tileYoink_inv (r : Room) (pid : String) (idx now : ℤ) (h : RoomInv r) :
    RoomInv (tileYoink r pid idx now).1 := by
  unfold tileYoink
  split
  · exact h
  next hph =>
    split
    · exact h
    next player hfind =>
      split
      · exact h
      next hidx =>
        split
        · exact h
        next tile htile =>
          split
          · exact h
          next hbank =>
            split
            · exact h
            next hcool =>
              have hmem : player ∈ r.players := List.mem_of_find?_eq_some hfind
              have hple : player.bank.length ≤ 7 := h.1 player hmem
              have hplt : player.bank.length < 7 := by omega
              constructor
              · intro p hp
                simp only [startSpawnTimer, List.mem_map] at hp
                obtain ⟨q, hq, hqp⟩ := hp
                rw [← hqp]
                by_cases hb : (q.id == pid) = true
                · simp only [hb, if_true]
                  simp only [List.length_append, List.length_singleton]
                  omega
                · simp only [hb, if_false]
                  exact h.1 q hq
              · intro _
                have hph2 : r.phase = Phase.playing := by
                  by_contra hcon
                  exact hph hcon
                simp [startSpawnTimer, hph2]

lemma handleSubmit_inv (dict : List String) (r : Room) (pid word0 : String)
    (allowed : Bool) (h : RoomInv r) : RoomInv (handleSubmit dict r pid word0 allowed).1 := by
  unfold handleSubmit
  split
  · exact h
  split
  · exact h
  split
  · exact h
  next player hfind =>
    dsimp only
    split
    · exact h
    split
    · exact h
    split
    · exact h
    split
    · exact h
    split
    · exact h
    have hmem : player ∈ r.players := List.mem_of_find?_eq_some hfind
    constructor
    · intro p hp
      simp only [List.mem_map] at hp
      obtain ⟨q, hq, hqp⟩ := hp
      rw [← hqp]
      by_cases hb : (q.id == pid) = true
      · simp only [hb, if_true]
        refine le_trans (consumeFromBank_length_le _ _) ?_
        exact h.1 player hmem
      · simp only [hb, if_false]
        exact h.1 q hq
    · exact h.2

lemma scheduleNext_congr (ph : Phase) (hph : ph = Phase.playing) (c : ℕ) :
    scheduleNext ph c = scheduleNext Phase.playing c := by
  rw [hph]

lemma handleSpawnFire_inv (r : Room) (choice : ℕ) (letter : Char) (h : RoomInv r) :
    RoomInv (handleSpawnFire r choice letter).1 := by
  unfold handleSpawnFire
  split
  · exact h
  · -- recheck branch
    exact ⟨h.1, fun hph => scheduleNext_congr r.phase hph _⟩
  · -- spawn branch
    split
    next hph =>
      refine ⟨h.1, ?_⟩
      intro hcon
      exact absurd hcon hph
    next hph =>
      have hph2 : r.phase = Phase.playing := by
        by_contra hcon
        exact hph hcon
      dsimp only
      split
      · exact ⟨h.1, fun _ => scheduleNext_congr r.phase hph2 _⟩
      · exact ⟨h.1, fun _ => scheduleNext_congr r.phase hph2 _⟩

lemma endYoinkRound_inv (r : Room) (now : ℤ)
    (hb : ∀ p ∈ r.players, p.bank.length ≤ 7) : RoomInv (endYoinkRound r now).1 := by
  unfold endYoinkRound
  split
  · exact ⟨hb, by intro hcon; exact absurd hcon (by simp)⟩
  · exact ⟨hb, by intro hcon; exact absurd hcon (by simp)⟩

lemma handleTick_inv (r : Room) (now : ℤ) (h : RoomInv r) :
    RoomInv (handleTick r now).1 := by
  unfold handleTick
  split
  · exact h
  split
  · exact endYoinkRound_inv _ now h.1
  · exact h

lemma handleSettingsUpdate_inv (r : Room) (a b c d : Option ℤ) (h : RoomInv r) :
    RoomInv (handleSettingsUpdate r a b c d).1 := by
  refine ⟨?_, h.2⟩
  intro p hp
  exact h.1 p hp

lemma handleDisconnect_inv (r : Room) (pid : String) (h : RoomInv r) :
    RoomInv (handleDisconnect r pid).1 := by
  refine ⟨?_, h.2⟩
  intro p hp
  simp only [handleDisconnect, List.mem_filter] at hp
  exact h.1 p hp.1

lemma onRoom_inv (s : ServerSt) (rid : String) (f : Room → Room × List Emit)
    (hf : ∀ r, RoomInv r → RoomInv (f r).1)
    (ih : ∀ r ∈ s, RoomInv r) : ∀ r ∈ (onRoom s rid f).1, RoomInv r := by
  unfold onRoom
  cases hl : lookupRoom s rid with
  | none =>
    intro r hr
    exact ih r hr
  | some r0 =>
    intro r hr
    rcases mem_replaceRoom s _ r hr with hr2 | hr2
    · rw [hr2]
      exact hf r0 (ih r0 (List.mem_of_find?_eq_some hl))
    · exact ih r hr2

/-- Every reachable registry satisfies the room invariant. -/
theorem serverInv (dict : List String) (s : ServerSt) (hs : Reachable dict s) :
    ∀ r ∈ s, RoomInv r := by
  induction hs with
  | init => intro r hr; simp at hr
  | step s e hprev ih =>
    cases e with
    | join rid pid name =>
      intro r hr
      simp only [stepServer] at hr
      split at hr
      next r0 hl =>
        rcases mem_replaceRoom s _ r hr with hr2 | hr2
        · rw [hr2]
          exact handleJoin_inv r0 pid name (ih r0 (List.mem_of_find?_eq_some hl))
        · exact ih r hr2
      next hl =>
        rw [List.mem_append] at hr
        rcases hr with hr | hr
        · exact ih r hr
        · rw [List.mem_singleton] at hr
          rw [hr]
          exact handleJoin_inv (newRoom rid) pid name (newRoom_inv rid)
    | gameStart rid now letters =>
      exact onRoom_inv s rid _ (fun r _ => handleGameStart_inv r now letters) ih
    | yoink rid pid index now =>
      exact onRoom_inv s rid _ (fun r h => tileYoink_inv r pid index now h) ih
    | submit rid pid word allowed =>
      exact onRoom_inv s rid _ (fun r h => handleSubmit_inv dict r pid word allowed h) ih
    | spawnFire rid choice letter =>
      exact onRoom_inv s rid _ (fun r h => handleSpawnFire_inv r choice letter h) ih
    | tickFire rid now =>
      exact onRoom_inv s rid _ (fun r h => handleTick_inv r now h) ih
    | intermissionFire rid now letters =>
      exact onRoom_inv s rid _ (fun r h => handleIntermissionFire_inv r now letters h) ih
    | settingsUpdate rid a b c d =>
      exact onRoom_inv s rid _ (fun r h => handleSettingsUpdate_inv r a b c d h) ih
    | disconnect rid pid =>
      exact onRoom_inv s rid _ (fun r h => handleDisconnect_inv r pid h) ih

lemma reachable_sJoin : Reachable fallbackDICT sJoin :=
  Reachable.step [] (Event.join "R" "p1" "Zed") Reachable.init

lemma reachable_sStart : Reachable fallbackDICT sStart :=
  Reachable.step sJoin (Event.gameStart "R" 0 L16) reachable_sJoin

lemma reachable_sBank7 : Reachable fallbackDICT sBank7 :=
  reachable_runEvents sStart
    [Event.yoink "R" "p1" 0 1000, Event.yoink "R" "p1" 1 1500,
     Event.yoink "R" "p1" 2 2000, Event.yoink "R" "p1" 3 2500,
     Event.yoink "R" "p1" 4 3000, Event.yoink "R" "p1" 5 3500,
     Event.yoink "R" "p1" 6 4000] reachable_sStart

/-- A placeholder player used to state fully concrete witnesses. -/
def dummyPlayer : Player :=
  { id := "", name := "", liveScore := 0, words := [], bank := [], lastYoinkTime := 0 }

/-- C4 counterexample: in the reachable state right after `game:start` the
grid is full (16 tiles), the phase is playing, and a timer IS pending in
`spawnTimer` (the 500 ms full-grid re-check), contradicting the claim that
no spawn timer is scheduled while all 16 slots are occupied. -/
theorem C4_counterexample :
    Reachable fallbackDICT sStart ∧
    (rmAt sStart).phase = Phase.playing ∧
    countPoolTiles (rmAt sStart).yoinkPool = 16 ∧
    (rmAt sStart).spawnTimer = some SpawnCb.recheck :=
  ⟨reachable_sStart, by decide, by decide, by decide⟩

/-- C4 (amended): in every reachable state with phase playing, the pending
spawn-loop callback is exactly `scheduleNext` of the tile count: some
callback is always pending, and it is the tile-spawning one iff some slot
is empty (with a full grid the pending callback is the 500 ms re-check,
which spawns nothing). -/
theorem C4_amended_spawn_schedule (dict : List String) (s : ServerSt)
    (hs : Reachable dict s) :
    ∀ r ∈ s, r.phase = Phase.playing →
      r.spawnTimer = scheduleNext Phase.playing (countPoolTiles r.yoinkPool) ∧
      r.spawnTimer ≠ none ∧
      (r.spawnTimer = some SpawnCb.spawn ↔ countPoolTiles r.yoinkPool < 16) := by
  intro r hr hph
  have hinv := (serverInv dict s hs r hr).2 hph
  refine ⟨hinv, ?_, ?_, ?_⟩
  · rw [hinv]
    unfold scheduleNext
    split
    · rw [if_pos rfl]
      simp
    · simp
  · intro hsp
    rw [hinv] at hsp
    unfold scheduleNext at hsp
    by_contra hge
    have h16 : 16 ≤ countPoolTiles r.yoinkPool := by omega
    rw [if_pos (Or.inl h16), if_pos rfl] at hsp
    simp at hsp
  · intro hlt
    rw [hinv]
    unfold scheduleNext
    have hcond : ¬(16 ≤ countPoolTiles r.yoinkPool ∨ Phase.playing ≠ Phase.playing) := by
      rintro (hc | hc)
      · omega
      · exact hc rfl
    rw [if_neg hcond]

/-- Witness for C4 (amended) at the reachable state `sStart`. -/
theorem C4_amended_spawn_schedule_witness :
    (rmAt sStart).spawnTimer =
      scheduleNext Phase.playing (countPoolTiles (rmAt sStart).yoinkPool) ∧
    (rmAt sStart).spawnTimer ≠ none ∧
    ((rmAt sStart).spawnTimer = some SpawnCb.spawn ↔
      countPoolTiles (rmAt sStart).yoinkPool < 16) :=
  C4_amended_spawn_schedule fallbackDICT sStart reachable_sStart
    (rmAt sStart) (by decide) (by decide)

/-- C7 counterexample: in the reachable state `sBank7` the sole player's
bank is full (length 7) and slot 0 is empty; a `tile:yoink` on that empty
slot is dropped silently (no `yoink:rejected "bank full"` is emitted, and
the registry is unchanged), so not every yoink with a full bank is
rejected with reason "bank full". -/
theorem C7_counterexample :
    (rmAt sBank7).phase = Phase.playing ∧
    ((rmAt sBank7).players.map (fun p => p.bank.length)) = [7] ∧
    (rmAt sBank7).yoinkPool.getD 0 none = none ∧
    stepServer fallbackDICT sBank7 (Event.yoink "R" "p1" 0 5000) = (sBank7, []) := by
  refine ⟨by decide, by decide, by decide, by decide⟩

/-- C7 (amended): in every reachable state every bank has length at most 7;
a `tile:yoink` whose target slot holds a tile, arriving while playing with
the submitter's bank already at 7, is rejected with reason "bank full" and
changes nothing (a yoink at an empty slot is instead dropped silently,
also appending nothing). -/
theorem C7_amended_bank_capacity :
    (∀ (dict : List String) (s : ServerSt), Reachable dict s →
      ∀ r ∈ s, ∀ p ∈ r.players, p.bank.length ≤ 7) ∧
    (∀ (r : Room) (pid : String) (player : Player) (idx now : ℤ) (tile : Char),
      r.phase = Phase.playing →
      r.players.find? (fun p => p.id == pid) = some player →
      ¬(idx < 0 ∨ 15 < idx) →
      r.yoinkPool.getD idx.toNat none = some tile →
      7 ≤ player.bank.length →
      tileYoink r pid idx now = (r, [Emit.toPlayer pid (Msg.yoinkRejected "bank full")])) := by
  constructor
  · intro dict s hs r hr
    exact (serverInv dict s hs r hr).1
  · intro r pid player idx now tile hph hfind hidx htile hbank
    unfold tileYoink
    rw [if_neg (by rw [hph]; simp)]
    rw [hfind]
    dsimp only
    rw [if_neg hidx]
    rw [htile]
    dsimp only
    rw [if_pos hbank]

/-- Witness for C7 (amended): the bank bound at the concrete reachable
state `sBank7`, and the "bank full" rejection on the occupied slot 7. -/
theorem C7_amended_bank_capacity_witness :
    ((rmAt sBank7).players.getD 0 dummyPlayer).bank.length ≤ 7 ∧
    tileYoink (rmAt sBank7) "p1" 7 5000 =
      (rmAt sBank7, [Emit.toPlayer "p1" (Msg.yoinkRejected "bank full")]) :=
  ⟨C7_amended_bank_capacity.1 fallbackDICT sBank7 reachable_sBank7
      (rmAt sBank7) (by decide) _ (by decide),
   C7_amended_bank_capacity.2 (rmAt sBank7) "p1"
      ((rmAt sBank7).players.getD 0 dummyPlayer) 7 5000 'N'
      (by decide) (by decide) (by decide) (by decide) (by decide)⟩

/-- C8 counterexample: after the sole player of the playing room "R"
disconnects, the room is still present in the registry with its tick timer
and spawn-loop callback still pending — the room is neither destroyed nor
are its timers canceled. -/
theorem C8_counterexample :
    ((rmAt sStart).players.map (fun p => p.id)) = ["p1"] ∧
    (lookupRoom (stepServer fallbackDICT sStart (Event.disconnect "R" "p1")).1 "R").isSome
      = true ∧
    (rmAt (stepServer fallbackDICT sStart (Event.disconnect "R" "p1")).1).players = [] ∧
    (rmAt (stepServer fallbackDICT sStart (Event.disconnect "R" "p1")).1).tick = true ∧
    (rmAt (stepServer fallbackDICT sStart (Event.disconnect "R" "p1")).1).spawnTimer
      = some SpawnCb.recheck := by
  refine ⟨by decide, by decide, by decide, by decide, by decide⟩

/-- C8 (amended): a disconnect only removes the player from the room's
player table and re-broadcasts state; the room stays in the registry with
every other field — including both timer handles — unchanged. -/
theorem C8_amended_disconnect (dict : List String) (s : ServerSt) (rid pid : String)
    (r : Room) (h : lookupRoom s rid = some r) :
    lookupRoom (stepServer dict s (Event.disconnect rid pid)).1 rid =
      some { r with players := r.players.filter (fun p => !(p.id == pid)) } ∧
    (stepServer dict s (Event.disconnect rid pid)).2 = [Emit.toRoom r.id Msg.stateMsg] := by
  constructor
  · show lookupRoom (onRoom s rid fun r => handleDisconnect r pid).1 rid = _
    unfold onRoom
    rw [h]
    exact lookupRoom_replaceRoom s rid r _ h rfl
  · show (onRoom s rid fun r => handleDisconnect r pid).2 = _
    unfold onRoom
    rw [h]
    rfl

/-- Witness for C8 (amended) on the concrete one-player room. -/
theorem C8_amended_disconnect_witness :
    lookupRoom (stepServer fallbackDICT sStart (Event.disconnect "R" "p1")).1 "R" =
      some { rmAt sStart with
             players := (rmAt sStart).players.filter (fun p => !(p.id == "p1")) } ∧
    (stepServer fallbackDICT sStart (Event.disconnect "R" "p1")).2 =
      [Emit.toRoom (rmAt sStart).id Msg.stateMsg] :=
  C8_amended_disconnect fallbackDICT sStart "R" "p1" (rmAt sStart) (by decide)

/-- C5 counterexample: in the reachable state `sYoink1` the player is in
cooldown (`lastYoinkTime = 1000`); a yoink at 1100 ms on the now-empty
slot 0 is dropped with no emission at all (the slot-existence check runs
before the cooldown check), and a yoink on the occupied slot 5 is rejected
with reason "too fast", not "cooldown". -/
theorem C5_counterexample :
    (rmAt sYoink1).phase = Phase.playing ∧
    ((rmAt sYoink1).players.map (fun p => p.lastYoinkTime)) = [1000] ∧
    ((1100 : ℤ) - 1000 < 500) ∧
    (rmAt sYoink1).yoinkPool.getD 0 none = none ∧
    (stepServer fallbackDICT sYoink1 (Event.yoink "R" "p1" 0 1100)).2 = [] ∧
    (stepServer fallbackDICT sYoink1 (Event.yoink "R" "p1" 5 1100)).2 =
      [Emit.toPlayer "p1" (Msg.yoinkRejected "too fast")] := by
  refine ⟨by decide, by decide, by decide, by decide, by decide, by decide⟩

/-- C5 (amended): a `tile:yoink` while playing on an occupied slot with a
non-full bank and `now − lastYoinkTime < 500` is rejected to the submitter
with reason "too fast" (the source's string for the cooldown policy) and
changes nothing; the slot-existence and bank-full checks PRECEDE the
cooldown check, so a yoink at an empty slot is silently dropped; a yoink
arriving exactly at `lastYoinkTime + 500` passes the cooldown and
succeeds. -/
theorem C5_amended_cooldown :
    (∀ (r : Room) (pid : String) (player : Player) (idx now : ℤ) (tile : Char),
      r.phase = Phase.playing →
      r.players.find? (fun p => p.id == pid) = some player →
      ¬(idx < 0 ∨ 15 < idx) →
      r.yoinkPool.getD idx.toNat none = some tile →
      player.bank.length < 7 →
      now - player.lastYoinkTime < 500 →
      tileYoink r pid idx now = (r, [Emit.toPlayer pid (Msg.yoinkRejected "too fast")])) ∧
    (∀ (r : Room) (pid : String) (idx now : ℤ),
      r.yoinkPool.getD idx.toNat none = none →
      tileYoink r pid idx now = (r, [])) ∧
    (∀ (r : Room) (pid : String) (player : Player) (idx now : ℤ) (tile : Char),
      r.phase = Phase.playing →
      r.players.find? (fun p => p.id == pid) = some player →
      ¬(idx < 0 ∨ 15 < idx) →
      r.yoinkPool.getD idx.toNat none = some tile →
      player.bank.length < 7 →
      now - player.lastYoinkTime = 500 →
      (tileYoink r pid idx now).2 =
        [Emit.toRoom r.id Msg.stateMsg,
         Emit.toRoom r.id (Msg.tileYoinked pid player.name idx tile)]) := by
  refine ⟨?_, ?_, ?_⟩
  · intro r pid player idx now tile hph hfind hidx htile hbank hcool
    unfold tileYoink
    rw [if_neg (by rw [hph]; simp)]
    rw [hfind]
    dsimp only
    rw [if_neg hidx]
    rw [htile]
    dsimp only
    rw [if_neg (by omega)]
    rw [if_pos hcool]
  · intro r pid idx now hnone
    unfold tileYoink
    split
    · rfl
    split
    · rfl
    split
    · rfl
    rw [hnone]
  · intro r pid player idx now tile hph hfind hidx htile hbank hcool
    unfold tileYoink
    rw [if_neg (by rw [hph]; simp)]
    rw [hfind]
    dsimp only
    rw [if_neg hidx]
    rw [htile]
    dsimp only
    rw [if_neg (by omega)]
    rw [if_neg (by omega)]
    rfl

/-- Witness for C5 (amended): the three cases at the concrete state
`sYoink1` (cooldown rejection on slot 5, silent drop on empty slot 0, and
success exactly at `lastYoinkTime + 500`). -/
theorem C5_amended_cooldown_witness :
    tileYoink (rmAt sYoink1) "p1" 5 1200 =
      (rmAt sYoink1, [Emit.toPlayer "p1" (Msg.yoinkRejected "too fast")]) ∧
    tileYoink (rmAt sYoink1) "p1" 0 1100 = (rmAt sYoink1, []) ∧
    (tileYoink (rmAt sYoink1) "p1" 5 1500).2 =
      [Emit.toRoom "R" Msg.stateMsg,
       Emit.toRoom "R" (Msg.tileYoinked "p1" "Zed" 5 'T')] :=
  ⟨C5_amended_cooldown.1 (rmAt sYoink1) "p1"
      ((rmAt sYoink1).players.getD 0 dummyPlayer) 5 1200 'T'
      (by decide) (by decide) (by decide) (by decide) (by decide) (by decide),
   C5_amended_cooldown.2.1 (rmAt sYoink1) "p1" 0 1100 (by decide),
   C5_amended_cooldown.2.2 (rmAt sYoink1) "p1"
      ((rmAt sYoink1).players.getD 0 dummyPlayer) 5 1500 'T'
      (by decide) (by decide) (by decide) (by decide) (by decide) (by decide)⟩

/-- The exact rejection-reason strings the yoink submit handler can emit. -/
def wordRejectReasons : List String :=
  ["too short", "too long (max 7)", "not in dictionary", "not enough tiles in bank"]

/-- C6 counterexample: a word absent from the dictionary is rejected with
reason "not in dictionary" — a string outside the claim's reason set
(which expects "not a word"). -/
theorem C6_counterexample :
    (stepServer fallbackDICT sStart (Event.submit "R" "p1" "QUIZ" true)).2 =
      [Emit.toPlayer "p1" (Msg.wordRejected "QUIZ" "not in dictionary")] ∧
    ("not in dictionary" : String) ∉
      (["too short", "too long (max 7)", "not a word", "not in bank"] : List String) := by
  refine ⟨by decide, by decide⟩

/-- C6 (amended): every `word:rejected` the submit handler emits goes to
the submitter only, with reason drawn exactly from { "too short",
"too long (max 7)", "not in dictionary", "not enough tiles in bank" };
a dictionary-absent word gets "not in dictionary" and a word not buildable
from the bank gets "not enough tiles in bank". -/
theorem C6_amended_reject_reasons (dict : List String) (r : Room) (pid word0 : String)
    (allowed : Bool) :
    (∀ e ∈ (handleSubmit dict r pid word0 allowed).2, ∀ (sid w reason : String),
      (e = Emit.toPlayer sid (Msg.wordRejected w reason) ∨
       e = Emit.toRoom sid (Msg.wordRejected w reason)) →
      sid = pid ∧ e = Emit.toPlayer pid (Msg.wordRejected w reason) ∧
        reason ∈ wordRejectReasons) ∧
    (∀ player : Player,
      r.started = true → allowed = true →
      r.players.find? (fun p => p.id == pid) = some player →
      (word0.data.map Char.toUpper).isEmpty = false →
      ((word0.data.map Char.toUpper).all fun c => decide ('A' ≤ c) && decide (c ≤ 'Z')) = true →
      ¬(String.mk (word0.data.map Char.toUpper)).length < r.settings.minLen →
      ¬7 < (String.mk (word0.data.map Char.toUpper)).length →
      dict.contains (String.mk (word0.data.map Char.toUpper)) = false →
      handleSubmit dict r pid word0 allowed =
        (r, [Emit.toPlayer pid (Msg.wordRejected (String.mk (word0.data.map Char.toUpper))
          "not in dictionary")])) ∧
    (∀ player : Player,
      r.started = true → allowed = true →
      r.players.find? (fun p => p.id == pid) = some player →
      (word0.data.map Char.toUpper).isEmpty = false →
      ((word0.data.map Char.toUpper).all fun c => decide ('A' ≤ c) && decide (c ≤ 'Z')) = true →
      ¬(String.mk (word0.data.map Char.toUpper)).length < r.settings.minLen →
      ¬7 < (String.mk (word0.data.map Char.toUpper)).length →
      dict.contains (String.mk (word0.data.map Char.toUpper)) = true →
      canConsumeFromBank (word0.data.map Char.toUpper) player.bank = false →
      handleSubmit dict r pid word0 allowed =
        (r, [Emit.toPlayer pid (Msg.wordRejected (String.mk (word0.data.map Char.toUpper))
          "not enough tiles in bank")])) := by
  refine ⟨?_, ?_, ?_⟩
  case refine_2 =>
    intro player hstart hallow hfind hne hall hmin hmax hdict
    unfold handleSubmit
    rw [if_neg (by simp [hstart])]
    rw [if_neg (by simp [hallow])]
    rw [hfind]
    dsimp only
    rw [if_neg (not_not_intro ⟨hne, hall⟩)]
    rw [if_neg hmin]
    rw [if_neg hmax]
    rw [if_pos (by rw [hdict]; simp)]
  case refine_3 =>
    intro player hstart hallow hfind hne hall hmin hmax hdict hcan
    unfold handleSubmit
    rw [if_neg (by simp [hstart])]
    rw [if_neg (by simp [hallow])]
    rw [hfind]
    dsimp only
    rw [if_neg (not_not_intro ⟨hne, hall⟩)]
    rw [if_neg hmin]
    rw [if_neg hmax]
    rw [if_neg (by rw [hdict]; simp)]
    rw [if_pos (by rw [hcan]; simp)]
  unfold handleSubmit
  split
  · intro e he
    simp at he
  split
  · intro e he
    simp at he
  split
  · intro e he
    simp at he
  next player hfind =>
    dsimp only
    split
    · intro e he
      simp at he
    split
    · intro e he sid w reason hor
      simp only [List.mem_singleton] at he
      subst he
      rcases hor with hor | hor
      · simp only [Emit.toPlayer.injEq, Msg.wordRejected.injEq] at hor
        exact ⟨hor.1.symm, by rw [hor.1, hor.2.1, hor.2.2], by rw [← hor.2.2]; decide⟩
      · simp at hor
    split
    · intro e he sid w reason hor
      simp only [List.mem_singleton] at he
      subst he
      rcases hor with hor | hor
      · simp only [Emit.toPlayer.injEq, Msg.wordRejected.injEq] at hor
        exact ⟨hor.1.symm, by rw [hor.1, hor.2.1, hor.2.2], by rw [← hor.2.2]; decide⟩
      · simp at hor
    split
    · intro e he sid w reason hor
      simp only [List.mem_singleton] at he
      subst he
      rcases hor with hor | hor
      · simp only [Emit.toPlayer.injEq, Msg.wordRejected.injEq] at hor
        exact ⟨hor.1.symm, by rw [hor.1, hor.2.1, hor.2.2], by rw [← hor.2.2]; decide⟩
      · simp at hor
    split
    · intro e he sid w reason hor
      simp only [List.mem_singleton] at he
      subst he
      rcases hor with hor | hor
      · simp only [Emit.toPlayer.injEq, Msg.wordRejected.injEq] at hor
        exact ⟨hor.1.symm, by rw [hor.1, hor.2.1, hor.2.2], by rw [← hor.2.2]; decide⟩
      · simp at hor
    · intro e he sid w reason hor
      simp only [List.mem_cons, List.not_mem_nil, or_false] at he
      rcases he with he | he <;> subst he <;>
        rcases hor with hor | hor <;> simp [emitState] at hor

/-- Witness for C6 (amended): the reason-set bound at the concrete "QUIZ"
rejection, the dictionary-miss rejection of "QUIZ", and the bank-shortfall
rejection of "TEAM" against the empty bank at `sStart`. -/
theorem C6_amended_reject_reasons_witness :
    ("not in dictionary" : String) ∈ wordRejectReasons ∧
    handleSubmit fallbackDICT (rmAt sStart) "p1" "QUIZ" true =
      (rmAt sStart, [Emit.toPlayer "p1" (Msg.wordRejected "QUIZ" "not in dictionary")]) ∧
    handleSubmit fallbackDICT (rmAt sStart) "p1" "TEAM" true =
      (rmAt sStart,
       [Emit.toPlayer "p1" (Msg.wordRejected "TEAM" "not enough tiles in bank")]) :=
  ⟨((C6_amended_reject_reasons fallbackDICT (rmAt sStart) "p1" "QUIZ" true).1
      (Emit.toPlayer "p1" (Msg.wordRejected "QUIZ" "not in dictionary")) (by decide)
      "p1" "QUIZ" "not in dictionary" (Or.inl rfl)).2.2,
   (C6_amended_reject_reasons fallbackDICT (rmAt sStart) "p1" "QUIZ" true).2.1
      ((rmAt sStart).players.getD 0 dummyPlayer) (by decide) (by decide) (by decide)
      (by decide) (by decide) (by decide) (by decide) (by decide),
   (C6_amended_reject_reasons fallbackDICT (rmAt sStart) "p1" "TEAM" true).2.2
      ((rmAt sStart).players.getD 0 dummyPlayer) (by decide) (by decide) (by decide)
      (by decide) (by decide) (by decide) (by decide) (by decide) (by decide)⟩

/-- Some emission in the list is a `word:accepted`. -/
def wordAcceptedEmits (es : List Emit) : Bool :=
  es.any (fun e => match e with
    | Emit.toPlayer _ (Msg.wordAccepted _ _ _ _ _) => true
    | _ => false)

/-- Some emission in the list is a `word:rejected`. -/
def wordRejectedEmits (es : List Emit) : Bool :=
  es.any (fun e => match e with
    | Emit.toPlayer _ (Msg.wordRejected _ _) => true
    | Emit.toRoom _ (Msg.wordRejected _ _) => true
    | _ => false)

lemma canConsumeAux_iff (l : List Char) : ∀ avail : List Char,
    canConsumeAux l avail = true ↔ l.Subperm avail := by
  induction l with
  | nil =>
    intro avail
    constructor
    · intro _
      exact List.nil_subperm
    · intro _
      rfl
  | cons c cs ih =>
    intro avail
    unfold canConsumeAux
    by_cases hc : avail.contains c = true
    · rw [if_pos hc, ih (avail.erase c)]
      have hmem : c ∈ avail := List.elem_iff.mp hc
      have hpos : 0 < avail.count c := List.count_pos_iff.mpr hmem
      rw [List.subperm_ext_iff, List.subperm_ext_iff]
      constructor
      · intro hl x hx
        rcases List.mem_cons.mp hx with rfl | hx2
        · rw [List.count_cons]
          simp only [beq_self_eq_true, if_true]
          by_cases hccs : x ∈ cs
          · have h1 := hl x hccs
            rw [List.count_erase_self] at h1
            omega
          · have h0 : cs.count x = 0 := List.count_eq_zero.mpr hccs
            omega
        · by_cases hxc : x = c
          · subst hxc
            have h1 := hl x hx2
            rw [List.count_erase_self] at h1
            rw [List.count_cons]
            simp only [beq_self_eq_true, if_true]
            omega
          · have hbe : (c == x) = false := by
              rw [beq_eq_false_iff_ne]
              intro hcx
              exact hxc hcx.symm
            have h1 := hl x hx2
            rw [List.count_erase, hbe] at h1
            simp only [Bool.false_eq_true, if_false, Nat.sub_zero] at h1
            rw [List.count_cons, hbe]
            simp only [Bool.false_eq_true, if_false, Nat.add_zero]
            exact h1
      · intro hr x hx
        have h1 := hr x (List.mem_cons_of_mem c hx)
        rw [List.count_erase]
        rw [List.count_cons] at h1
        by_cases hxc : c = x
        · subst hxc
          simp only [beq_self_eq_true, if_true] at h1 ⊢
          omega
        · have hbe : (c == x) = false := by
            rw [beq_eq_false_iff_ne]
            exact hxc
          rw [hbe] at h1 ⊢
          simp only [Bool.false_eq_true, if_false, Nat.add_zero, Nat.sub_zero] at h1 ⊢
          exact h1
    · rw [if_neg hc]
      apply iff_of_false (by simp)
      intro hsub
      have hmem : c ∈ avail := hsub.subset (List.mem_cons_self c cs)
      rw [← List.elem_iff] at hmem
      exact hc hmem

/-- C2 counterexample: from the reachable state `sBank4` the player's bank
is `[M, A, E, T]` — the same letters as "TEAM" but in a different order —
and the submission of "TEAM" is ACCEPTED (a `word:accepted` is emitted, no
`word:rejected`, and the whole bank is consumed), while the claim requires
it to be rejected. -/
theorem C2_counterexample :
    (['M', 'A', 'E', 'T'] : List Char).Perm "TEAM".data ∧
    (['M', 'A', 'E', 'T'] : List Char) ≠ "TEAM".data ∧
    ((rmAt sBank4).players.map (fun p => p.bank)) = [['M', 'A', 'E', 'T']] ∧
    wordAcceptedEmits
      (stepServer fallbackDICT sBank4 (Event.submit "R" "p1" "TEAM" true)).2 = true ∧
    wordRejectedEmits
      (stepServer fallbackDICT sBank4 (Event.submit "R" "p1" "TEAM" true)).2 = false ∧
    ((rmAt (stepServer fallbackDICT sBank4 (Event.submit "R" "p1" "TEAM" true)).1).players.map
      (fun p => p.bank)) = [[]] := by
  refine ⟨by decide, by decide, by decide, by decide, by decide, by decide⟩

/-- C2 (amended): the bank check of the submit handler is a sub-multiset
test, not an ordered match: `canConsumeFromBank word bank` succeeds exactly
when the letters of the (uppercased) word can be drawn from the bank with
multiplicity, irrespective of order — so a word whose letters equal the
bank's in a different order is accepted, not rejected. -/
theorem C2_amended_bank_subperm (word bank : List Char) :
    canConsumeFromBank word bank = true ↔ (word.map Char.toUpper).Subperm bank :=
  canConsumeAux_iff (word.map Char.toUpper) bank

/-- The leaderboard of the first `round:ended` event in an emission list. -/
def roundEndedLB : List Emit → Option (List LBEntry)
  | [] => none
  | Emit.toRoom _ (Msg.roundEnded _ _ lb) :: _ => some lb
  | _ :: t => roundEndedLB t

/-- Modelled from the spec: name order ("ties by name ascending"),
lexicographic on the characters. -/
def nameLe (a b : String) : Prop :=
  a = b ∨ List.Lex (fun x y : Char => x < y) a.data b.data

/-- Modelled from the spec: the claimed leaderboard order — cumulative
score descending with ties broken by name ascending. -/
def specLBOrder (a b : LBEntry) : Prop :=
  b.cumulativeScore < a.cumulativeScore ∨
    (a.cumulativeScore = b.cumulativeScore ∧ nameLe a.name b.name)

lemma mem_lbInsert (x a : LBEntry) (l : List LBEntry) (h : a ∈ lbInsert x l) :
    a = x ∨ a ∈ l := by
  induction l with
  | nil => simpa [lbInsert] using h
  | cons y t ih =>
    unfold lbInsert at h
    split at h
    · rcases List.mem_cons.mp h with h1 | h1
      · left
        exact h1
      · right
        exact h1
    · rcases List.mem_cons.mp h with h1 | h1
      · right
        rw [h1]
        exact List.mem_cons_self y t
      · rcases ih h1 with h2 | h2
        · left
          exact h2
        · right
          exact List.mem_cons_of_mem y h2

lemma lbInsert_sorted (x : LBEntry) (l : List LBEntry)
    (h : List.Pairwise (fun a b => b.cumulativeScore ≤ a.cumulativeScore) l) :
    List.Pairwise (fun a b => b.cumulativeScore ≤ a.cumulativeScore) (lbInsert x l) := by
  induction l with
  | nil => simp [lbInsert]
  | cons y t ih =>
    have hp := List.pairwise_cons.mp h
    unfold lbInsert
    split
    next hlt =>
      constructor
      · intro b hb
        rcases List.mem_cons.mp hb with rfl | hb2
        · omega
        · have hyb := hp.1 b hb2
          omega
      · exact h
    next hge =>
      constructor
      · intro b hb
        rcases mem_lbInsert x b t hb with rfl | hb2
        · omega
        · exact hp.1 b hb2
      · exact ih hp.2

lemma sortLeaderboard_sorted_aux (l acc : List LBEntry)
    (h : List.Pairwise (fun a b => b.cumulativeScore ≤ a.cumulativeScore) acc) :
    List.Pairwise (fun a b => b.cumulativeScore ≤ a.cumulativeScore)
      (l.foldl (fun a x => lbInsert x a) acc) := by
  induction l generalizing acc with
  | nil => exact h
  | cons x xs ih => exact ih _ (lbInsert_sorted x acc h)

lemma sortLeaderboard_sorted (l : List LBEntry) :
    List.Pairwise (fun a b => b.cumulativeScore ≤ a.cumulativeScore) (sortLeaderboard l) :=
  sortLeaderboard_sorted_aux l [] (by simp)

lemma filter_eq_nil_of_lt (y : LBEntry) (t : List LBEntry) (q : ℤ)
    (h : List.Pairwise (fun a b => b.cumulativeScore ≤ a.cumulativeScore) (y :: t))
    (hlt : y.cumulativeScore < q) :
    (y :: t).filter (fun z => z.cumulativeScore == q) = [] := by
  rw [List.filter_eq_nil_iff]
  intro z hz
  rcases List.mem_cons.mp hz with rfl | hz2
  · simp only [beq_iff_eq]
    omega
  · have hzy := (List.pairwise_cons.mp h).1 z hz2
    simp only [beq_iff_eq]
    omega

lemma lbInsert_filter (x : LBEntry) (l : List LBEntry) (q : ℤ)
    (h : List.Pairwise (fun a b => b.cumulativeScore ≤ a.cumulativeScore) l) :
    (lbInsert x l).filter (fun z => z.cumulativeScore == q) =
      if x.cumulativeScore = q
      then l.filter (fun z => z.cumulativeScore == q) ++ [x]
      else l.filter (fun z => z.cumulativeScore == q) := by
  induction l with
  | nil =>
    by_cases hxq : x.cumulativeScore = q <;> simp [lbInsert, hxq]
  | cons y t ih =>
    have hp := List.pairwise_cons.mp h
    unfold lbInsert
    split
    next hlt =>
      by_cases hxq : x.cumulativeScore = q
      · have hnil : (y :: t).filter (fun z => z.cumulativeScore == q) = [] :=
          filter_eq_nil_of_lt y t q h (by omega)
        simp [List.filter_cons, hxq, hnil]
      · simp [List.filter_cons, hxq]
    next hge =>
      by_cases hxq : x.cumulativeScore = q <;> by_cases hyq : y.cumulativeScore = q <;>
        simp [List.filter_cons, hxq, hyq, ih hp.2]

lemma sortLeaderboard_filter_aux (l : List LBEntry) (q : ℤ) : ∀ acc : List LBEntry,
    List.Pairwise (fun a b => b.cumulativeScore ≤ a.cumulativeScore) acc →
    ((l.foldl (fun a x => lbInsert x a) acc).filter (fun z => z.cumulativeScore == q)) =
      acc.filter (fun z => z.cumulativeScore == q) ++
        l.filter (fun z => z.cumulativeScore == q) := by
  induction l with
  | nil =>
    intro acc hacc
    simp
  | cons x xs ih =>
    intro acc hacc
    simp only [List.foldl_cons]
    rw [ih _ (lbInsert_sorted x acc hacc), lbInsert_filter x acc q hacc]
    by_cases hxq : x.cumulativeScore = q
    · simp [hxq, List.filter_cons]
    · simp [hxq, List.filter_cons]

/-- Stability of the leaderboard sort: for every score value, the entries
holding that score appear in the same order as in the unsorted input. -/
lemma sortLeaderboard_filter (l : List LBEntry) (q : ℤ) :
    (sortLeaderboard l).filter (fun z => z.cumulativeScore == q) =
      l.filter (fun z => z.cumulativeScore == q) := by
  unfold sortLeaderboard
  rw [sortLeaderboard_filter_aux l q [] (by simp)]
  simp

lemma roundEndedLB_endYoinkRound (r : Room) (now : ℤ) :
    roundEndedLB (endYoinkRound r now).2 =
      some (sortLeaderboard (endRoundAux r.players r.cumulativeScores).2) := by
  unfold endYoinkRound
  dsimp only
  split <;> rfl

/-- C9 counterexample: the round ending from the reachable state `sZA`
(players "Zed" then "Amy", both on cumulative score 0) emits the
leaderboard `[Zed, Amy]`, which violates the claimed order — equal scores
would require name-ascending `[Amy, Zed]`. -/
theorem C9_counterexample :
    roundEndedLB (stepServer fallbackDICT sZA (Event.tickFire "R" 60000)).2 =
      some [⟨"p1", "Zed", 0, 0⟩, ⟨"p2", "Amy", 0, 0⟩] ∧
    ¬ specLBOrder ⟨"p1", "Zed", 0, 0⟩ ⟨"p2", "Amy", 0, 0⟩ ∧
    specLBOrder ⟨"p2", "Amy", 0, 0⟩ ⟨"p1", "Zed", 0, 0⟩ := by
  refine ⟨by decide, ?_, ?_⟩
  · intro hord
    unfold specLBOrder nameLe at hord
    rcases hord with hord | hord
    · exact absurd hord (by decide)
    · rcases hord.2 with he | hlex
      · exact absurd he (by decide)
      · exact absurd hlex (by decide)
  · unfold specLBOrder nameLe
    right
    refine ⟨rfl, ?_⟩
    right
    decide

/-- C9 (amended): every emitted `round:ended` leaderboard is sorted by
cumulative score descending; entries with equal cumulative scores keep the
order in which the players appear in the room's player table (join order) —
there is no name tiebreak. -/
theorem C9_amended_leaderboard (r : Room) (now : ℤ) (lb : List LBEntry)
    (h : roundEndedLB (endYoinkRound r now).2 = some lb) :
    List.Pairwise (fun a b => b.cumulativeScore ≤ a.cumulativeScore) lb ∧
    ∀ q : ℤ, lb.filter (fun z => z.cumulativeScore == q) =
      ((endRoundAux r.players r.cumulativeScores).2).filter
        (fun z => z.cumulativeScore == q) := by
  rw [roundEndedLB_endYoinkRound] at h
  have hlb : lb = sortLeaderboard (endRoundAux r.players r.cumulativeScores).2 :=
    (Option.some.inj h).symm
  subst hlb
  exact ⟨sortLeaderboard_sorted _, fun q => sortLeaderboard_filter _ q⟩

/-- Witness for C9 (amended) on the concrete tied round end. -/
theorem C9_amended_leaderboard_witness :
    List.Pairwise (fun a b => b.cumulativeScore ≤ a.cumulativeScore)
      ([⟨"p1", "Zed", 0, 0⟩, ⟨"p2", "Amy", 0, 0⟩] : List LBEntry) ∧
    ([⟨"p1", "Zed", 0, 0⟩, ⟨"p2", "Amy", 0, 0⟩] : List LBEntry).filter
        (fun z => z.cumulativeScore == 0) =
      ((endRoundAux (rmAt sZA).players (rmAt sZA).cumulativeScores).2).filter
        (fun z => z.cumulativeScore == 0) :=
  ⟨(C9_amended_leaderboard (rmAt sZA) 60000
      [⟨"p1", "Zed", 0, 0⟩, ⟨"p2", "Amy", 0, 0⟩] (by decide)).1,
   (C9_amended_leaderboard (rmAt sZA) 60000
      [⟨"p1", "Zed", 0, 0⟩, ⟨"p2", "Amy", 0, 0⟩] (by decide)).2 0⟩

/-- C10: a `game:start` received in any phase — lobby, mid-round playing,
intermission or finished — immediately restarts the game: the phase becomes
playing with `currentRound = 1`, every cumulative score is reset to 0, and
the 16-slot grid is completely refilled. -/
theorem C10_game_start_any_phase (dict : List String) (s : ServerSt) (rid : String) (r : Room)
    (now : ℤ) (letters : List Char) (h : lookupRoom s rid = some r) :
    ∃ r2, lookupRoom (stepServer dict s (Event.gameStart rid now letters)).1 rid = some r2 ∧
      r2.phase = Phase.playing ∧ r2.currentRound = 1 ∧
      (∀ pr ∈ r2.cumulativeScores, pr.2 = 0) ∧
      r2.yoinkPool.length = 16 ∧ (∀ t ∈ r2.yoinkPool, t.isSome = true) := by
  refine ⟨(handleGameStart r now letters).1, ?_, ?_, ?_, ?_, ?_, ?_⟩
  · show lookupRoom (onRoom s rid fun r => handleGameStart r now letters).1 rid = _
    unfold onRoom
    rw [h]
    exact lookupRoom_replaceRoom s rid r _ h (handleGameStart_id r now letters)
  · simp [handleGameStart, startNextYoinkRound, startSpawnTimer]
  · simp [handleGameStart, startNextYoinkRound, startSpawnTimer]
  · intro pr hpr
    simp only [handleGameStart, startNextYoinkRound, startSpawnTimer] at hpr
    simp only [List.mem_map] at hpr
    obtain ⟨p, _, hp⟩ := hpr
    rw [← hp]
  · simp only [handleGameStart, startNextYoinkRound, startSpawnTimer]
    rw [length_fillYoinkPool]
    rfl
  · intro t ht
    simp only [handleGameStart, startNextYoinkRound, startSpawnTimer] at ht
    exact isSome_of_mem_fillYoinkPool _ _ t ht

/-- Witness for C10: restarting from the mid-round playing state `sYoink1`. -/
theorem C10_game_start_any_phase_witness :
    ∃ r2, lookupRoom (stepServer fallbackDICT sYoink1
        (Event.gameStart "R" 7777 L16)).1 "R" = some r2 ∧
      r2.phase = Phase.playing ∧ r2.currentRound = 1 ∧
      (∀ pr ∈ r2.cumulativeScores, pr.2 = 0) ∧
      r2.yoinkPool.length = 16 ∧ (∀ t ∈ r2.yoinkPool, t.isSome = true) :=
  C10_game_start_any_phase fallbackDICT sYoink1 "R" (rmAt sYoink1) 7777 L16 (by decide)

end Yoink
